import Mathlib

/-!
# QuickGantt core — shallow embedding

A shallow embedding of the core of `src/chart_engine.py`:

* the schema resolver `detect_columns` (lines 51–90), and
* the layout computation performed by `create_gantt_chart` (lines 92–241).

Modelling choices, in one place:

* Calendar dates are day numbers (`Nat`): days since 1970-01-01 in the
  proleptic Gregorian calendar.  `daysFromCivil`/`civilFromDays` are the
  standard civil-calendar conversions, valid for years ≥ 1970, which covers
  every date this development touches.
* A pandas `DataFrame`, as consumed by `create_gantt_chart` after column
  resolution, is modelled by `Frame`: the task/start/end/phase/duration
  columns row by row.  A date column that is not yet datetime-typed holds
  `Cell.raw` strings; a datetime-typed one holds `Cell.dt` day numbers.
* `df.sort_values(by=start_col)` is modelled as a concrete ascending sort
  by start date (`sortBy rowLe`); pandas' default `kind='quicksort'` does
  not guarantee any tie order, so no theorem here relies on the relative
  order of rows with equal start dates.
* The matplotlib drawing calls are recorded as a pure `RenderPlan` value:
  bar primitives, y-axis ticks, gridline dates, and legend entries.
* The error type `ChartError` names the raise sites of the code:
  `schemaError` is the `ValueError` of `detect_columns` (line 88),
  `invalidDateRange` is a date-parsing failure inside `pd.to_datetime`
  (lines 125/127), and `emptyDataset` is the `ValueError` that
  `pd.date_range` raises at line 205 when the frame is empty (the min/max
  of an empty column is `NaT`).
-/

deriving instance DecidableEq for Except

namespace QuickGantt

/-! ## String helpers -/

/-- Substring test on character lists: does the second list occur
contiguously inside the first?  Models Python's `pattern in s`. -/
def listContains (pat : List Char) : List Char → Bool
  | [] => pat.isEmpty
  | c :: t => pat.isPrefixOf (c :: t) || listContains pat t

/-- Models Python's `pattern in col_lower` (line 77). -/
def strContains (hay pat : String) : Bool :=
  listContains pat.data hay.data

/-- ASCII lowercasing of one character. -/
def lowerChar (c : Char) : Char :=
  if 65 ≤ c.toNat ∧ c.toNat ≤ 90 then Char.ofNat (c.toNat + 32) else c

/-- Models Python's `col.lower()` (line 62); column names are ASCII. -/
def pyLower (s : String) : String := ⟨s.data.map lowerChar⟩

/-- Lexicographic comparison of character lists by code point; models the
order Python's `sorted` uses on strings (line 135). -/
def charsLe : List Char → List Char → Bool
  | [], _ => true
  | _ :: _, [] => false
  | a :: as, b :: bs =>
    if a.toNat < b.toNat then true
    else if b.toNat < a.toNat then false
    else charsLe as bs

/-- String comparison used when sorting phase names. -/
def strLe (a b : String) : Bool := charsLe a.data b.data

/-! ## Calendar arithmetic

Day numbers are days since 1970-01-01.  These are the standard
civil-from-days / days-from-civil conversions restricted to `Nat`
(valid from 1970 on). -/

/-- Day number of the Gregorian date `y-m-d`, for `y ≥ 1970`. -/
def daysFromCivil (y m d : Nat) : Nat :=
  let y' := if m ≤ 2 then y - 1 else y
  let era := y' / 400
  let yoe := y' - era * 400
  let mp := if 2 < m then m - 3 else m + 9
  let doy := (153 * mp + 2) / 5 + d - 1
  let doe := yoe * 365 + yoe / 4 - yoe / 100 + doy
  era * 146097 + doe - 719468

/-- Gregorian date `(y, m, d)` of a day number. -/
def civilFromDays (z : Nat) : Nat × Nat × Nat :=
  let z' := z + 719468
  let era := z' / 146097
  let doe := z' % 146097
  let yoe := (doe - doe / 1460 + doe / 36524 - doe / 146096) / 365
  let y' := yoe + era * 400
  let doy := doe - (365 * yoe + yoe / 4 - yoe / 100)
  let mp := (5 * doy + 2) / 153
  let d := doy - (153 * mp + 2) / 5 + 1
  let m := if mp < 10 then mp + 3 else mp - 9
  (if m ≤ 2 then y' + 1 else y', m, d)

/-- Is this day the first of a month?  Used to model
`pd.date_range(freq='MS')` (line 210). -/
def isMonthStart (z : Nat) : Bool := (civilFromDays z).2.2 == 1

/-- Is this day a Sunday?  1970-01-01 was a Thursday, so day `z` is a
Sunday iff `(z + 4) % 7 = 0`.  `pd.date_range(freq='W')` (line 205)
emits exactly the Sundays in its range (`'W'` is the alias `W-SUN`). -/
def isSunday (z : Nat) : Bool := (z + 4) % 7 == 0

/-! ## Schema resolver (`detect_columns`, lines 51–90) -/

/-- One step of building the Python dict comprehension
`{col.lower(): col for col in df.columns}` (line 62): inserting a key that
is already present overwrites its value in place; a fresh key is appended. -/
def dictInsert (d : List (String × String)) (k v : String) :
    List (String × String) :=
  if k ∈ d.map Prod.fst then
    d.map (fun p => if p.1 = k then (p.1, v) else p)
  else d ++ [(k, v)]

/-- `columns_lower` (line 62): insertion-ordered dict from lowercased
column name to the (last) original spelling. -/
def columnsLower (cols : List String) : List (String × String) :=
  cols.foldl (fun d c => dictInsert d (pyLower c) c) []

/-- The inner loops of lines 74–81 for one role: try each candidate
pattern in priority order; within a pattern take the first dict entry
whose (lowercased) key contains it; stop at the first pattern that
matches anything. -/
def findRole (d : List (String × String)) : List String → Option String
  | [] => none
  | p :: ps =>
    match d.find? (fun kv => strContains kv.1 p) with
    | some kv => some kv.2
    | none => findRole d ps

/-- The resolver's output: `column_mapping`, one optional column name per
semantic role. -/
structure RoleMapping where
  task : Option String := none
  duration : Option String := none
  phase : Option String := none
  start_date : Option String := none
  end_date : Option String := none
deriving Repr, DecidableEq

/-- Candidate substrings for `task` (line 66). -/
def taskPatterns : List String := ["task", "name", "description"]
/-- Candidate substrings for `duration` (line 67). -/
def durationPatterns : List String := ["duration", "weeks", "days"]
/-- Candidate substrings for `phase` (line 68). -/
def phasePatterns : List String := ["phase", "category", "group"]
/-- Candidate substrings for `start_date` (line 69). -/
def startPatterns : List String := ["start", "begin"]
/-- Candidate substrings for `end_date` (line 70). -/
def endPatterns : List String := ["end", "finish"]

/-- Lines 61–81 of `detect_columns`: the unvalidated `column_mapping`. -/
def detectColumnsRaw (cols : List String) : RoleMapping :=
  let d := columnsLower cols
  { task := findRole d taskPatterns
    duration := findRole d durationPatterns
    phase := findRole d phasePatterns
    start_date := findRole d startPatterns
    end_date := findRole d endPatterns }

/-- The error signals of the core (see the module docstring for the
correspondence with the code's raise sites). -/
inductive ChartError where
  | schemaError (missing : List String)
  | invalidDateRange
  | emptyDataset
deriving Repr, DecidableEq

/-- `required_cols` (line 84). -/
def requiredCols : List String := ["task", "start_date", "end_date"]

/-- Dictionary-style access `column_mapping.get(key)` on the mapping. -/
def roleLookup (m : RoleMapping) : String → Option String
  | "task" => m.task
  | "duration" => m.duration
  | "phase" => m.phase
  | "start_date" => m.start_date
  | "end_date" => m.end_date
  | _ => none

/-- `missing_cols` (line 85): required roles absent from the mapping. -/
def missingCols (m : RoleMapping) : List String :=
  requiredCols.filter (fun c => (roleLookup m c).isNone)

/-- `detect_columns` (lines 51–90): resolve roles, then fail with the full
list of missing mandatory roles if any (lines 83–88). -/
def detect_columns (cols : List String) : Except ChartError RoleMapping :=
  let m := detectColumnsRaw cols
  if missingCols m = [] then .ok m else .error (.schemaError (missingCols m))

/-! ## Layout engine (`create_gantt_chart`, lines 92–241) -/

/-- A cell of a date column: either a not-yet-parsed string (the column is
not datetime-typed) or a day number (datetime-typed). -/
inductive Cell where
  | raw (s : String)
  | dt (d : Nat)
deriving Repr, DecidableEq

/-- One row of the frame, restricted to the resolved columns.  `phase` and
`durationLabel` carry the cells of the optional columns; they are
meaningful only when the corresponding `Frame` flag is set. -/
structure RawRow where
  name : String
  startCell : Cell
  endCell : Cell
  phase : String := ""
  durationLabel : String := ""
deriving Repr, DecidableEq

/-- The `DataFrame` as `create_gantt_chart` consumes it.  `hasPhase`
models `phase_col and phase_col in df.columns` (line 134/174), and
`hasDuration` models `duration_col and duration_col in df.columns`
(line 185). -/
structure Frame where
  hasPhase : Bool := false
  hasDuration : Bool := false
  rows : List RawRow
deriving Repr, DecidableEq

/-- A row after date normalization: both dates are day numbers. -/
structure Row where
  name : String
  startDay : Nat
  endDay : Nat
  phase : String := ""
  durationLabel : String := ""
deriving Repr, DecidableEq

/-! ### Date parsing (`pd.to_datetime`, lines 124–127)

`pd.to_datetime` accepts ISO `y-m-d` strings; we model that subset and
fail on anything else. -/

/-- Split a character list on a separator. -/
def splitOnChar (sep : Char) : List Char → List (List Char)
  | [] => [[]]
  | a :: l =>
    match splitOnChar sep l with
    | [] => [[a]]
    | g :: gs => if a == sep then [] :: g :: gs else (a :: g) :: gs

/-- Parse a non-empty all-digit character list. -/
def digitsToNat? (l : List Char) : Option Nat :=
  if l.isEmpty then none
  else l.foldl
    (fun acc c => acc.bind fun n =>
      if 48 ≤ c.toNat ∧ c.toNat ≤ 57 then some (10 * n + (c.toNat - 48))
      else none)
    (some 0)

/-- Parse an ISO `y-m-d` date string into a day number. -/
def parseDate (s : String) : Option Nat :=
  match splitOnChar '-' s.data with
  | [y, m, d] => do
    let y ← digitsToNat? y
    let m ← digitsToNat? m
    let d ← digitsToNat? d
    if 1970 ≤ y ∧ 1 ≤ m ∧ m ≤ 12 ∧ 1 ≤ d ∧ d ≤ 31 then
      some (daysFromCivil y m d)
    else none
  | _ => none

/-- Normalize one date cell: a datetime cell is kept as is (lines 124/126
skip already-datetime columns; `pd.to_datetime` is the identity on them),
a raw cell is parsed, failing on an unparseable date. -/
def cellToDt : Cell → Except ChartError Nat
  | .dt d => .ok d
  | .raw s =>
    match parseDate s with
    | some d => .ok d
    | none => .error .invalidDateRange

/-- Normalize one row's two date cells. -/
def normalizeRow (r : RawRow) : Except ChartError Row :=
  match cellToDt r.startCell with
  | .error e => .error e
  | .ok s =>
    match cellToDt r.endCell with
    | .error e => .error e
    | .ok e =>
      .ok { name := r.name, startDay := s, endDay := e, phase := r.phase,
            durationLabel := r.durationLabel }

/-- Lines 124–127: normalize the start and end columns of every row. -/
def normalizeRows : List RawRow → Except ChartError (List Row)
  | [] => .ok []
  | r :: rs =>
    match normalizeRow r with
    | .error e => .error e
    | .ok nr =>
      match normalizeRows rs with
      | .error e => .error e
      | .ok nrs => .ok (nr :: nrs)

/-- A normalized row as the caller sees it inside the mutated frame:
both date cells are now datetime-typed. -/
def rowToRaw (r : Row) : RawRow :=
  { name := r.name, startCell := .dt r.startDay, endCell := .dt r.endDay,
    phase := r.phase, durationLabel := r.durationLabel }

/-! ### Sorting (`df.sort_values(by=start_col)`, line 130)

`sort_values` with no `kind` argument uses pandas' default
`kind='quicksort'`, which pandas documents as **not stable**: the
relative order of rows sharing a start date is implementation-defined
(numpy introsort).  A deterministic embedding must still pick some
concrete sort; we use an insertion sort, one refinement of the
unspecified tie order.  Nothing proved below about the layout depends on
which refinement is chosen: every property stated over the sorted rows
(bar widths and left edges, colors, legend, gridline min/max range) is
invariant under permuting rows with equal start dates, and no theorem in
this file asserts a tie-break order. -/

/-- Insert into a list sorted by `le`, before the first element not below
the new one. -/
def insertSorted (le : α → α → Bool) (a : α) : List α → List α
  | [] => [a]
  | b :: l => if le a b then a :: b :: l else b :: insertSorted le a l

/-- Insertion sort; models `sort_values` (ascending) up to the
implementation-defined order of equal keys (see the section comment). -/
def sortBy (le : α → α → Bool) : List α → List α
  | [] => []
  | a :: l => insertSorted le a (sortBy le l)

/-- Row comparison by start date. -/
def rowLe (a b : Row) : Bool := a.startDay ≤ b.startDay

/-- Line 130: sort the rows ascending by start date.  Tie order among
equal start dates is not guaranteed by the code (default quicksort); this
definition fixes one concrete order and is used only in ways that do not
depend on it. -/
def sortRows (rows : List Row) : List Row := sortBy rowLe rows

/-! ### Phases and colors (lines 132–150, 173–178) -/

/-- The eight colors of `plt.cm.Dark2.colors` (line 133), as hex. -/
def dark2Palette : List String :=
  ["#1b9e77", "#d95f02", "#7570b3", "#e7298a",
   "#66a61e", "#e6ab02", "#a6761d", "#666666"]

/-- Models `df[phase_col].unique()` (line 135): distinct values in first
occurrence order. -/
def pyUnique (l : List String) : List String :=
  l.foldl (fun acc a => if a ∈ acc then acc else acc ++ [a]) []

/-- Line 135: `phases = sorted(df[phase_col].unique())`. -/
def sortedPhases (rows : List Row) : List String :=
  sortBy strLe (pyUnique (rows.map Row.phase))

/-- Lines 137–147: `color_map`.  With custom colors, each phase takes the
custom entry when present, else its palette color; `if custom_colors:` is
falsy for an empty dict, which lands in the palette-only branch. -/
def buildColorMap (customColors : Option (List (String × String)))
    (phases : List String) : List (String × String) :=
  match customColors with
  | some cc =>
    if cc = [] then
      phases.enum.map (fun ip => (ip.2, dark2Palette.getD (ip.1 % 8) "blue"))
    else
      phases.enum.map
        (fun ip => (ip.2, (cc.lookup ip.2).getD (dark2Palette.getD (ip.1 % 8) "blue")))
  | none =>
    phases.enum.map (fun ip => (ip.2, dark2Palette.getD (ip.1 % 8) "blue"))

/-- Lines 173–178: the fill color of one task's bar.  With a phase column,
`color_map.get(phase, 'blue')`; without one, the constant `'steelblue'`. -/
def taskColor (hasPhase : Bool) (colorMap : List (String × String))
    (phase : String) : String :=
  if hasPhase then (colorMap.lookup phase).getD "blue" else "steelblue"

/-! ### Bars (lines 152–193) -/

/-- Lines 168–171: duration in days, clamped to a minimum of 1. -/
def durationDays (r : Row) : Int :=
  let d : Int := (r.endDay : Int) - (r.startDay : Int)
  if d ≤ 0 then 1 else d

/-- Lines 184–188: the bar's label text. -/
def barLabel (hasDuration : Bool) (d : Int) (durationLabel : String) : String :=
  if hasDuration then durationLabel else toString d ++ "d"

/-- One horizontal bar primitive as drawn by `ax.barh` (line 181) plus its
label (lines 184–193). -/
structure Bar where
  yPos : Nat
  left : Nat
  widthDays : Int
  color : String
  label : String
deriving Repr, DecidableEq

/-- The `i`-th drawn bar (0-indexed over the sorted rows, `n` rows in
total): `y_pos = len(df) - 1 - i` (line 164), `left = start_date`,
width `duration_days`. -/
def mkBar (hasPhase hasDuration : Bool) (colorMap : List (String × String))
    (n i : Nat) (r : Row) : Bar :=
  { yPos := n - 1 - i
    left := r.startDay
    widthDays := durationDays r
    color := taskColor hasPhase colorMap r.phase
    label := barLabel hasDuration (durationDays r) r.durationLabel }

/-! ### Gridlines (lines 202–212) -/

/-- The closed day-number interval `[s, e]` as a list (empty when `e < s`). -/
def rangeClosed (s e : Nat) : List Nat :=
  (List.range (e + 1 - s)).map (fun k => s + k)

/-- `pd.date_range(start, end, freq='W')` (line 205): the Sundays in
`[s, e]`. -/
def dateRangeWeekly (s e : Nat) : List Nat :=
  (rangeClosed s e).filter isSunday

/-- `pd.date_range(start, end, freq='MS')` (line 210): the first-of-month
days in `[s, e]`. -/
def dateRangeMonthStarts (s e : Nat) : List Nat :=
  (rangeClosed s e).filter isMonthStart

/-- Opacity of the weekly gridlines: `alpha=0.3` at line 208. -/
def weeklyGridAlpha : ℚ := 3 / 10

/-- Opacity of the monthly gridlines: `alpha=0.2` at line 212. -/
def monthlyGridAlpha : ℚ := 1 / 5

/-- Line style of the weekly gridlines (line 208). -/
def weeklyGridStyle : String := "--"

/-- Line style of the monthly gridlines (line 212). -/
def monthlyGridStyle : String := "-"

/-- Minimum of a list of day numbers (`df[start_col].min()`, line 203). -/
def listMin : List Nat → Nat
  | [] => 0
  | x :: xs => xs.foldl Nat.min x

/-- Maximum of a list of day numbers (`df[end_col].max()`, line 204). -/
def listMax : List Nat → Nat
  | [] => 0
  | x :: xs => xs.foldl Nat.max x

def minStart (rows : List Row) : Nat := listMin (rows.map Row.startDay)

def maxEnd (rows : List Row) : Nat := listMax (rows.map Row.endDay)

/-! ### The render plan -/

/-- The pure record of what `create_gantt_chart` draws: bar primitives,
y-axis ticks (lines 195–197), gridline dates (lines 202–212), and legend
entries (lines 226–238). -/
structure RenderPlan where
  bars : List Bar := []
  yTicks : List (Nat × String) := []
  weeklyGridlines : List Nat := []
  monthlyGridlines : List Nat := []
  legend : List (String × String) := []
deriving Repr, DecidableEq

instance : Inhabited RenderPlan := ⟨{}⟩

/-- The plan emitted for a non-empty frame by lines 129–238: sort, build
the color map, emit one bar per row, the tick labels, the gridlines and
the legend. -/
def layoutPlan (hasPhase hasDuration : Bool) (rows : List Row)
    (customColors : Option (List (String × String))) : RenderPlan :=
  let sorted := sortRows rows
  let phases := if hasPhase then sortedPhases sorted else []
  let colorMap := if hasPhase then buildColorMap customColors (sortedPhases sorted) else []
  let n := sorted.length
  { bars := sorted.enum.map (fun ir => mkBar hasPhase hasDuration colorMap n ir.1 ir.2)
    yTicks := sorted.enum.map (fun ir => (n - 1 - ir.1, ir.2.name))
    weeklyGridlines := dateRangeWeekly (minStart sorted) (maxEnd sorted)
    monthlyGridlines := dateRangeMonthStarts (minStart sorted) (maxEnd sorted)
    legend :=
      if hasPhase && !phases.isEmpty then
        phases.map (fun p => (p, (colorMap.lookup p).getD "blue"))
      else [] }

/-- The layout computation on normalized rows (lines 129–238).  On an
empty frame, `df[start_col].min()` is `NaT` and `pd.date_range`
(line 205) raises — modelled as `emptyDataset`. -/
def layoutRows (hasPhase hasDuration : Bool) (rows : List Row)
    (customColors : Option (List (String × String))) :
    Except ChartError RenderPlan :=
  if sortRows rows = [] then .error .emptyDataset
  else .ok (layoutPlan hasPhase hasDuration rows customColors)

/-- `create_gantt_chart` (lines 92–241), as a function from the input
frame (and `custom_colors`) to the render plan together with the frame as
the caller sees it afterwards: lines 124–127 write the parsed date
columns back into the caller's `df` in place, while the sort at line 130
only rebinds the local name. -/
def create_gantt_chart (f : Frame)
    (customColors : Option (List (String × String)) := none) :
    Except ChartError (RenderPlan × Frame) :=
  match normalizeRows f.rows with
  | .error e => .error e
  | .ok rows =>
    match layoutRows f.hasPhase f.hasDuration rows customColors with
    | .error e => .error e
    | .ok plan => .ok (plan, { f with rows := rows.map rowToRaw })

/-! ## Definitions taken from the specification's wording

These are *not* translations of the code; they transcribe what the spec
(and the claims derived from it) say, so that the code's behaviour can be
compared against them. -/

/-- From the spec's words: "within a pattern the first matching column
(in table order) wins" — the first column of the table whose lowercased
name contains the pattern. -/
def firstColMatching (cols : List String) (pat : String) : Option String :=
  cols.find? (fun c => strContains (pyLower c) pat)

/-- From the spec's words: try the candidate patterns in priority order;
once a pattern matches any column, stop; within a pattern the first
matching column in table order wins. -/
def resolveRoleSpec (cols : List String) : List String → Option String
  | [] => none
  | p :: ps =>
    match firstColMatching cols p with
    | some c => some c
    | none => resolveRoleSpec cols ps

/-- From the claim's words: "the 7-day-interval boundaries within
`[min(start), max(end)]`" — dates at 7-day steps anchored at the range
start. -/
def specWeeklyBoundaries (s e : Nat) : List Nat :=
  (List.range ((e - s) / 7 + 1)).map (fun k => s + 7 * k)

/-- The five semantic roles. -/
def allRoles : List String :=
  ["task", "duration", "phase", "start_date", "end_date"]

/-- From the claim's words: the role mapping is injective — no two
distinct roles are mapped to the same column. -/
def roleMappingInjective (m : RoleMapping) : Prop :=
  ∀ r1 ∈ allRoles, ∀ r2 ∈ allRoles,
    r1 ≠ r2 → roleLookup m r1 = none ∨ roleLookup m r1 ≠ roleLookup m r2

/-! ## Small helpers used only in statements -/

/-- The last element of a list satisfying `p` (table order). -/
def lastWith (p : String → Bool) : List String → Option String
  | [] => none
  | c :: cs =>
    match lastWith p cs with
    | some v => some v
    | none => if p c then some c else none

/-- The mapping a successful `detect_columns` run returns. -/
def detectedMapping (cols : List String) : RoleMapping :=
  (detect_columns cols).toOption.getD {}

/-! ## Concrete inputs used by witnesses and counterexamples -/

/-- A zero-duration task (start = end = 2025-01-05). -/
def zeroRow : Row :=
  { name := "Z", startDay := daysFromCivil 2025 1 5, endDay := daysFromCivil 2025 1 5 }

/-- A negative-duration task (end before start). -/
def negRow : Row :=
  { name := "N", startDay := daysFromCivil 2025 1 9, endDay := daysFromCivil 2025 1 7 }

/-- The plan computed for the clamp scenario. -/
def zPlan : RenderPlan :=
  (layoutRows false false [zeroRow, negRow] none).toOption.getD default

/-- A single task spanning 2025-01-01 (a Wednesday) to 2025-01-15. -/
def gRow : Row :=
  { name := "G", startDay := daysFromCivil 2025 1 1, endDay := daysFromCivil 2025 1 15 }

/-- The plan computed for the gridline scenario. -/
def gPlan : RenderPlan :=
  (layoutRows false false [gRow] none).toOption.getD default

/-- A frame whose date columns are raw strings (not datetime-typed). -/
def mutFrame : Frame :=
  { rows := [{ name := "T", startCell := .raw "2025-01-05",
               endCell := .raw "2025-01-06" }] }

/-- A frame with zero rows. -/
def emptyFrame : Frame := { rows := [] }

/-- Two tasks with phases, used for the color-map scenario. -/
def pRow1 : Row :=
  { name := "p1", startDay := 10, endDay := 12, phase := "Beta" }

/-- Second phased task. -/
def pRow2 : Row :=
  { name := "p2", startDay := 11, endDay := 13, phase := "Alpha" }

/-- The plan computed for the phased scenario with a partial custom map. -/
def pPlan : RenderPlan :=
  (layoutRows true false [pRow1, pRow2] (some [("Alpha", "#123456")])).toOption.getD default

instance : Inhabited Frame := ⟨{ rows := [] }⟩

/-- A frame whose date columns are already datetime-typed. -/
def dtFrame : Frame :=
  { rows := [RawRow.mk "D" (.dt 5) (.dt 9) "" ""] }

/-- The result of the chart pipeline on `dtFrame`. -/
def cgOut : RenderPlan × Frame :=
  (create_gantt_chart dtFrame none).toOption.getD default

/-! ## Sanity checks of the embedding on concrete inputs -/

example : daysFromCivil 1970 1 1 = 0 := by decide
example : civilFromDays 20089 = (2025, 1, 1) := by decide
example : daysFromCivil 2025 1 1 = 20089 := by decide
example : isSunday (daysFromCivil 2025 1 5) = true := by decide
example : isSunday (daysFromCivil 2025 1 1) = false := by decide
example : pyLower "Task Name" = "task name" := by decide
example : strContains "task name" "task" = true := by decide
example : strContains "begin" "end" = false := by decide
example : parseDate "2025-01-05" = some (daysFromCivil 2025 1 5) := by decide
example : parseDate "hello" = none := by decide

example :
    detect_columns ["Task Name", "Begin", "Finish"] =
      .ok { task := some "Task Name", start_date := some "Begin",
            end_date := some "Finish" } := by decide

/-! ## Generic lemmas about the sorting, min/max and range helpers -/

theorem perm_insertSorted (le : α → α → Bool) (a : α) (l : List α) :
    (insertSorted le a l).Perm (a :: l) := by
  induction l with
  | nil => simp [insertSorted]
  | cons b t ih =>
    simp only [insertSorted]
    split
    · exact List.Perm.refl _
    · exact (ih.cons b).trans (List.Perm.swap a b t)

theorem perm_sortBy (le : α → α → Bool) (l : List α) :
    (sortBy le l).Perm l := by
  induction l with
  | nil => exact List.Perm.refl _
  | cons a t ih => exact (perm_insertSorted le a _).trans (ih.cons a)

theorem mem_sortBy {le : α → α → Bool} {l : List α} {x : α} :
    x ∈ sortBy le l ↔ x ∈ l :=
  (perm_sortBy le l).mem_iff

theorem foldlMin_le_init : ∀ (l : List Nat) (a : Nat), l.foldl Nat.min a ≤ a := by
  intro l
  induction l with
  | nil => intro a; simp
  | cons x t ih =>
    intro a
    calc (x :: t).foldl Nat.min a = t.foldl Nat.min (Nat.min a x) := rfl
      _ ≤ Nat.min a x := ih _
      _ ≤ a := Nat.min_le_left a x

theorem foldlMin_le_mem {x : Nat} : ∀ {l : List Nat} (a : Nat), x ∈ l → l.foldl Nat.min a ≤ x := by
  intro l
  induction l with
  | nil => intro a h; cases h
  | cons y t ih =>
    intro a h
    rcases List.mem_cons.mp h with rfl | hxt
    · calc (x :: t).foldl Nat.min a = t.foldl Nat.min (Nat.min a x) := rfl
        _ ≤ Nat.min a x := foldlMin_le_init t _
        _ ≤ x := Nat.min_le_right a x
    · exact ih _ hxt

theorem foldlMin_attain : ∀ (l : List Nat) (a : Nat),
    l.foldl Nat.min a = a ∨ ∃ x ∈ l, l.foldl Nat.min a = x := by
  intro l
  induction l with
  | nil => intro a; left; rfl
  | cons y t ih =>
    intro a
    rcases ih (Nat.min a y) with h | ⟨x, hx, hfx⟩
    · rcases Nat.le_total a y with hay | hya
      · left
        calc (y :: t).foldl Nat.min a = t.foldl Nat.min (Nat.min a y) := rfl
          _ = Nat.min a y := h
          _ = a := Nat.min_eq_left hay
      · right
        exact ⟨y, List.mem_cons_self y t, by
          calc (y :: t).foldl Nat.min a = t.foldl Nat.min (Nat.min a y) := rfl
            _ = Nat.min a y := h
            _ = y := Nat.min_eq_right hya⟩
    · right
      exact ⟨x, List.mem_cons_of_mem y hx, hfx⟩

theorem listMin_le {l : List Nat} {x : Nat} (h : x ∈ l) : listMin l ≤ x := by
  cases l with
  | nil => cases h
  | cons y t =>
    rcases List.mem_cons.mp h with rfl | hxt
    · exact foldlMin_le_init t x
    · exact foldlMin_le_mem y hxt

theorem listMin_attain {l : List Nat} (h : l ≠ []) : ∃ x ∈ l, listMin l = x := by
  cases l with
  | nil => exact absurd rfl h
  | cons y t =>
    rcases foldlMin_attain t y with h1 | ⟨x, hx, hfx⟩
    · exact ⟨y, List.mem_cons_self y t, h1⟩
    · exact ⟨x, List.mem_cons_of_mem y hx, hfx⟩

theorem foldlMax_init_le : ∀ (l : List Nat) (a : Nat), a ≤ l.foldl Nat.max a := by
  intro l
  induction l with
  | nil => intro a; simp
  | cons x t ih =>
    intro a
    calc a ≤ Nat.max a x := Nat.le_max_left a x
      _ ≤ t.foldl Nat.max (Nat.max a x) := ih _
      _ = (x :: t).foldl Nat.max a := rfl

theorem foldlMax_mem_le {x : Nat} : ∀ {l : List Nat} (a : Nat), x ∈ l → x ≤ l.foldl Nat.max a := by
  intro l
  induction l with
  | nil => intro a h; cases h
  | cons y t ih =>
    intro a h
    rcases List.mem_cons.mp h with rfl | hxt
    · calc x ≤ Nat.max a x := Nat.le_max_right a x
        _ ≤ t.foldl Nat.max (Nat.max a x) := foldlMax_init_le t _
        _ = (x :: t).foldl Nat.max a := rfl
    · exact ih _ hxt

theorem foldlMax_attain : ∀ (l : List Nat) (a : Nat),
    l.foldl Nat.max a = a ∨ ∃ x ∈ l, l.foldl Nat.max a = x := by
  intro l
  induction l with
  | nil => intro a; left; rfl
  | cons y t ih =>
    intro a
    rcases ih (Nat.max a y) with h | ⟨x, hx, hfx⟩
    · rcases Nat.le_total a y with hay | hya
      · right
        exact ⟨y, List.mem_cons_self y t, by
          calc (y :: t).foldl Nat.max a = t.foldl Nat.max (Nat.max a y) := rfl
            _ = Nat.max a y := h
            _ = y := Nat.max_eq_right hay⟩
      · left
        calc (y :: t).foldl Nat.max a = t.foldl Nat.max (Nat.max a y) := rfl
          _ = Nat.max a y := h
          _ = a := Nat.max_eq_left hya
    · right
      exact ⟨x, List.mem_cons_of_mem y hx, hfx⟩

theorem le_listMax {l : List Nat} {x : Nat} (h : x ∈ l) : x ≤ listMax l := by
  cases l with
  | nil => cases h
  | cons y t =>
    rcases List.mem_cons.mp h with rfl | hxt
    · exact foldlMax_init_le t x
    · exact foldlMax_mem_le y hxt

theorem listMax_attain {l : List Nat} (h : l ≠ []) : ∃ x ∈ l, listMax l = x := by
  cases l with
  | nil => exact absurd rfl h
  | cons y t =>
    rcases foldlMax_attain t y with h1 | ⟨x, hx, hfx⟩
    · exact ⟨y, List.mem_cons_self y t, h1⟩
    · exact ⟨x, List.mem_cons_of_mem y hx, hfx⟩

theorem mem_rangeClosed {s e x : Nat} : x ∈ rangeClosed s e ↔ s ≤ x ∧ x ≤ e := by
  simp only [rangeClosed, List.mem_map, List.mem_range]
  constructor
  · rintro ⟨k, hk, rfl⟩
    omega
  · rintro ⟨h1, h2⟩
    exact ⟨x - s, by omega, by omega⟩

theorem mem_pyUnique_aux (x : String) :
    ∀ (l acc : List String),
      x ∈ l.foldl (fun acc a => if a ∈ acc then acc else acc ++ [a]) acc ↔
        x ∈ acc ∨ x ∈ l := by
  intro l
  induction l with
  | nil => intro acc; simp
  | cons a t ih =>
    intro acc
    show x ∈ t.foldl _ (if a ∈ acc then acc else acc ++ [a]) ↔ _
    rw [ih]
    by_cases ha : a ∈ acc
    · simp only [ha, if_true, List.mem_cons]
      constructor
      · rintro (h | h)
        · exact Or.inl h
        · exact Or.inr (Or.inr h)
      · rintro (h | rfl | h)
        · exact Or.inl h
        · exact Or.inl ha
        · exact Or.inr h
    · simp only [ha, if_false, List.mem_append, List.mem_singleton, List.mem_cons]
      tauto

theorem mem_pyUnique {l : List String} {x : String} : x ∈ pyUnique l ↔ x ∈ l := by
  have := mem_pyUnique_aux x l []
  simpa [pyUnique] using this

theorem enum_map_getElem {α β : Type} (g : Nat × α → β) (l : List α) (i : Nat)
    (h : i < l.length) (h2 : i < (l.enum.map g).length) :
    (l.enum.map g)[i] = g (i, l[i]) := by
  simp [List.getElem_map, List.getElem_enum]

/-! ## Inversion lemmas for the layout pipeline -/

theorem layoutRows_ok_iff {hp hd : Bool} {rows : List Row}
    {cc : Option (List (String × String))} {plan : RenderPlan} :
    layoutRows hp hd rows cc = .ok plan ↔
      sortRows rows ≠ [] ∧ plan = layoutPlan hp hd rows cc := by
  unfold layoutRows
  split
  · rename_i h
    simp [h]
  · rename_i h
    simp only [Except.ok.injEq]
    constructor
    · intro he
      exact ⟨h, he.symm⟩
    · rintro ⟨-, he⟩
      exact he.symm

theorem layoutRows_error_iff {hp hd : Bool} {rows : List Row}
    {cc : Option (List (String × String))} {e : ChartError} :
    layoutRows hp hd rows cc = .error e ↔ sortRows rows = [] ∧ e = .emptyDataset := by
  unfold layoutRows
  split
  · rename_i h
    simp only [Except.error.injEq]
    constructor
    · intro he
      exact ⟨h, he.symm⟩
    · rintro ⟨-, he⟩
      exact he.symm
  · rename_i h
    simp [h]

/-! ## Lemmas about the `columns_lower` dictionary -/

theorem lookup_cons (k k1 v1 : String) (t : List (String × String)) :
    List.lookup k ((k1, v1) :: t) = if k = k1 then some v1 else List.lookup k t := by
  by_cases h : k = k1
  · subst h
    simp [List.lookup]
  · have hb : (k == k1) = false := by
      simpa [beq_iff_eq] using h
    simp [List.lookup, hb, h]

theorem lookup_map_overwrite (k v k' : String) :
    ∀ (d : List (String × String)),
      (d.map (fun p => if p.1 = k then (p.1, v) else p)).lookup k' =
        (d.lookup k').map (fun w => if k' = k then v else w) := by
  intro d
  induction d with
  | nil => simp [List.lookup]
  | cons hd t ih =>
    obtain ⟨k1, v1⟩ := hd
    rw [List.map_cons]
    by_cases h2 : k1 = k
    · subst h2
      rw [(by simp : (if ((k1, v1) : String × String).1 = k1 then (((k1, v1) : String × String).1, v) else (k1, v1)) = (k1, v)),
        lookup_cons, lookup_cons]
      by_cases h1 : k' = k1 <;> simp [h1, ih]
    · rw [(by simp [h2] : (if ((k1, v1) : String × String).1 = k then (((k1, v1) : String × String).1, v) else (k1, v1)) = (k1, v1)),
        lookup_cons, lookup_cons]
      by_cases h1 : k' = k1
      · subst h1
        simp [h2]
      · simp [h1, ih]

theorem lookup_append (d₁ d₂ : List (String × String)) (k : String) :
    (d₁ ++ d₂).lookup k =
      match d₁.lookup k with
      | some w => some w
      | none => d₂.lookup k := by
  induction d₁ with
  | nil => simp [List.lookup]
  | cons hd t ih =>
    obtain ⟨k1, v1⟩ := hd
    rw [List.cons_append, lookup_cons, lookup_cons]
    by_cases h : k = k1 <;> simp [h, ih]

theorem lookup_isSome_iff_mem_keys (d : List (String × String)) (k : String) :
    (∃ w, d.lookup k = some w) ↔ k ∈ d.map Prod.fst := by
  induction d with
  | nil => simp [List.lookup]
  | cons hd t ih =>
    obtain ⟨k1, v1⟩ := hd
    rw [lookup_cons]
    by_cases h : k = k1 <;> simp [h, ih]

theorem lookup_dictInsert (d : List (String × String)) (k v k' : String) :
    (dictInsert d k v).lookup k' = if k' = k then some v else d.lookup k' := by
  unfold dictInsert
  split
  · rename_i hmem
    rw [lookup_map_overwrite]
    by_cases h : k' = k
    · subst h
      obtain ⟨w, hw⟩ := (lookup_isSome_iff_mem_keys d k').mpr hmem
      simp [hw]
    · rcases hl : d.lookup k' with _ | w <;> simp [hl, h]
  · rename_i hmem
    rw [lookup_append]
    by_cases h : k' = k
    · subst h
      have hnone : d.lookup k' = none := by
        rcases hl : d.lookup k' with _ | w
        · rfl
        · exact absurd ((lookup_isSome_iff_mem_keys d k').mp ⟨w, hl⟩) hmem
      rw [hnone, if_pos rfl]
      simp [lookup_cons]
    · have hb : (k' == k) = false := by
        simpa [beq_iff_eq] using h
      rcases hl : d.lookup k' with _ | w <;>
        simp [lookup_cons, h, hb, List.lookup]

theorem lookup_columnsLower_aux (k : String) :
    ∀ (cols : List String) (d : List (String × String)),
      (cols.foldl (fun d c => dictInsert d (pyLower c) c) d).lookup k =
        match lastWith (fun c => pyLower c == k) cols with
        | some v => some v
        | none => d.lookup k := by
  intro cols
  induction cols with
  | nil => intro d; simp [lastWith]
  | cons c t ih =>
    intro d
    rw [List.foldl_cons, ih]
    rcases hlw : lastWith (fun c => pyLower c == k) t with _ | v
    · simp only [lastWith, hlw, lookup_dictInsert]
      by_cases h : pyLower c = k
      · simp [h]
      · have h' : ¬(k = pyLower c) := fun he => h he.symm
        simp [h, h', beq_iff_eq]
    · simp only [lastWith, hlw]

theorem lookup_columnsLower (cols : List String) (k : String) :
    (columnsLower cols).lookup k = lastWith (fun c => pyLower c == k) cols := by
  have h := lookup_columnsLower_aux k cols []
  rcases hlw : lastWith (fun c => pyLower c == k) cols with _ | v <;>
    rw [hlw] at h <;> simpa [columnsLower, List.lookup] using h

theorem keys_dictInsert (d : List (String × String)) (k v : String) :
    (dictInsert d k v).map Prod.fst =
      if k ∈ d.map Prod.fst then d.map Prod.fst else d.map Prod.fst ++ [k] := by
  unfold dictInsert
  split <;> rename_i h
  · rw [List.map_map]
    refine List.map_congr_left ?_
    intro p hp
    by_cases hpk : p.1 = k <;> simp [Function.comp, hpk]
  · simp [h]

theorem keysNodup_columnsLower (cols : List String) :
    ((columnsLower cols).map Prod.fst).Nodup := by
  suffices h : ∀ (cols : List String) (d : List (String × String)),
      (d.map Prod.fst).Nodup →
      ((cols.foldl (fun d c => dictInsert d (pyLower c) c) d).map Prod.fst).Nodup by
    exact h cols [] (by simp)
  intro cols
  induction cols with
  | nil => intro d h; simpa using h
  | cons c t ih =>
    intro d h
    rw [List.foldl_cons]
    apply ih
    rw [keys_dictInsert]
    split
    · exact h
    · rename_i hmem
      refine h.append (List.nodup_singleton _) ?_
      intro x hx hx2
      rw [List.mem_singleton] at hx2
      subst hx2
      exact hmem hx

theorem lookup_of_mem_nodupKeys :
    ∀ {d : List (String × String)} {k v : String},
      (d.map Prod.fst).Nodup → (k, v) ∈ d → d.lookup k = some v := by
  intro d
  induction d with
  | nil => intro k v _ hmem; cases hmem
  | cons hd t ih =>
    intro k v hnd hmem
    obtain ⟨k1, v1⟩ := hd
    rw [List.map_cons, List.nodup_cons] at hnd
    rcases List.mem_cons.mp hmem with heq | hmt
    · cases heq
      rw [lookup_cons, if_pos rfl]
    · have hk1 : ¬(k = k1) := by
        rintro rfl
        exact hnd.1 (List.mem_map.mpr ⟨(k, v), hmt, rfl⟩)
      rw [lookup_cons, if_neg hk1]
      exact ih hnd.2 hmt

theorem lastWith_spec {p : String → Bool} :
    ∀ {l : List String} {v : String}, lastWith p l = some v → v ∈ l ∧ p v = true := by
  intro l
  induction l with
  | nil => intro v h; simp [lastWith] at h
  | cons c t ih =>
    intro v h
    simp only [lastWith] at h
    rcases hlw : lastWith p t with _ | w <;> rw [hlw] at h
    · rcases hpc : p c with _ | _ <;> rw [hpc] at h
      · simp at h
      · simp only [if_true] at h
        cases h
        exact ⟨List.mem_cons_self c t, hpc⟩
    · cases h
      obtain ⟨hm, hp⟩ := ih hlw
      exact ⟨List.mem_cons_of_mem c hm, hp⟩

theorem findRole_mem {d : List (String × String)} {c : String} :
    ∀ {pats : List String}, findRole d pats = some c → ∃ kv ∈ d, kv.2 = c := by
  intro pats
  induction pats with
  | nil => intro h; simp [findRole] at h
  | cons p ps ih =>
    intro h
    simp only [findRole] at h
    rcases hf : d.find? (fun kv => strContains kv.1 p) with _ | kv <;> rw [hf] at h
    · exact ih h
    · cases h
      exact ⟨kv, List.mem_of_find?_eq_some hf, rfl⟩

theorem findRole_columnsLower_last {cols pats : List String} {c : String}
    (h : findRole (columnsLower cols) pats = some c) :
    lastWith (fun x => pyLower x == pyLower c) cols = some c := by
  obtain ⟨⟨k, v⟩, hmem, hv⟩ := findRole_mem h
  cases hv
  have hlk := lookup_of_mem_nodupKeys (keysNodup_columnsLower cols) hmem
  rw [lookup_columnsLower] at hlk
  have hspec := lastWith_spec hlk
  have hk : pyLower v = k := by
    have := hspec.2
    simpa [beq_iff_eq] using this
  rw [← hk] at hlk
  exact hlk

/-! ## Relating the resolver to the spec-side resolver (distinct names) -/

theorem colsLower_aux :
    ∀ (cols : List String) (d : List (String × String)),
      (∀ c ∈ cols, pyLower c ∉ d.map Prod.fst) → (cols.map pyLower).Nodup →
      cols.foldl (fun d c => dictInsert d (pyLower c) c) d =
        d ++ cols.map (fun c => (pyLower c, c)) := by
  intro cols
  induction cols with
  | nil => intro d _ _; simp
  | cons c t ih =>
    intro d hd hnd
    rw [List.map_cons, List.nodup_cons] at hnd
    rw [List.foldl_cons]
    have hstep : dictInsert d (pyLower c) c = d ++ [(pyLower c, c)] := by
      unfold dictInsert
      rw [if_neg (hd c (List.mem_cons_self c t))]
    rw [hstep, ih (d ++ [(pyLower c, c)]) ?_ hnd.2]
    · simp
    · intro c' hc'
      rw [List.map_append, List.mem_append]
      rintro (h1 | h2)
      · exact hd c' (List.mem_cons_of_mem c hc') h1
      · simp only [List.map_cons, List.map_nil, List.mem_singleton] at h2
        exact hnd.1 (h2 ▸ List.mem_map.mpr ⟨c', hc', rfl⟩)

theorem columnsLower_of_nodup {cols : List String}
    (h : (cols.map pyLower).Nodup) :
    columnsLower cols = cols.map (fun c => (pyLower c, c)) := by
  simpa [columnsLower] using colsLower_aux cols [] (by simp) h

theorem findRole_map_eq (cols : List String) :
    ∀ (pats : List String),
      findRole (cols.map (fun c => (pyLower c, c))) pats = resolveRoleSpec cols pats := by
  intro pats
  induction pats with
  | nil => simp [findRole, resolveRoleSpec]
  | cons p ps ih =>
    simp only [findRole, resolveRoleSpec]
    rw [List.find?_map]
    have hpred :
        ((fun kv : String × String => strContains kv.1 p) ∘ fun c => (pyLower c, c)) =
          fun c => strContains (pyLower c) p := by
      funext c
      rfl
    rw [hpred]
    rcases hf : firstColMatching cols p with _ | c
    · rw [show cols.find? (fun c => strContains (pyLower c) p) = none from hf]
      simpa using ih
    · rw [show cols.find? (fun c => strContains (pyLower c) p) = some c from hf]
      rfl

/-! ## Lemmas about the color map -/

theorem lookup_enumFrom_map (g : Nat → String → String) :
    ∀ (phases : List String) (k : Nat) (p : String), p ∈ phases →
      ∃ i, k ≤ i ∧ i < k + phases.length ∧
        ((phases.enumFrom k).map (fun ip => (ip.2, g ip.1 ip.2))).lookup p =
          some (g i p) := by
  intro phases
  induction phases with
  | nil => intro k p h; cases h
  | cons a t ih =>
    intro k p h
    rw [show List.enumFrom k (a :: t) = (k, a) :: List.enumFrom (k + 1) t from rfl,
      List.map_cons]
    by_cases hpa : p = a
    · subst hpa
      refine ⟨k, Nat.le_refl k, by simp, ?_⟩
      rw [lookup_cons, if_pos rfl]
    · have hpt : p ∈ t := by
        rcases List.mem_cons.mp h with rfl | h2
        · exact absurd rfl hpa
        · exact h2
      obtain ⟨i, h1, h2, h3⟩ := ih (k + 1) p hpt
      refine ⟨i, by omega, by simp; omega, ?_⟩
      rw [lookup_cons, if_neg hpa]
      exact h3

theorem lookup_enum_map (g : Nat → String → String) (phases : List String)
    (p : String) (h : p ∈ phases) :
    ∃ i, i < phases.length ∧
      (phases.enum.map (fun ip => (ip.2, g ip.1 ip.2))).lookup p = some (g i p) := by
  obtain ⟨i, -, h2, h3⟩ := lookup_enumFrom_map g phases 0 p h
  exact ⟨i, by omega, h3⟩

theorem buildColorMap_covers (cc : Option (List (String × String)))
    {phases : List String} {p : String} (h : p ∈ phases) :
    ∃ c, (buildColorMap cc phases).lookup p = some c := by
  rcases cc with _ | cc
  · obtain ⟨i, -, h3⟩ :=
      lookup_enum_map (fun i q => dark2Palette.getD (i % 8) "blue") phases p h
    exact ⟨_, h3⟩
  · by_cases hcc : cc = []
    · obtain ⟨i, -, h3⟩ :=
        lookup_enum_map (fun i q => dark2Palette.getD (i % 8) "blue") phases p h
      refine ⟨dark2Palette.getD (i % 8) "blue", ?_⟩
      rw [show buildColorMap (some cc) phases =
        phases.enum.map (fun ip => (ip.2, dark2Palette.getD (ip.1 % 8) "blue")) from by
          simp [buildColorMap, hcc]]
      exact h3
    · obtain ⟨i, -, h3⟩ :=
        lookup_enum_map
          (fun i q => (cc.lookup q).getD (dark2Palette.getD (i % 8) "blue")) phases p h
      refine ⟨(cc.lookup p).getD (dark2Palette.getD (i % 8) "blue"), ?_⟩
      rw [show buildColorMap (some cc) phases =
        phases.enum.map
          (fun ip => (ip.2, (cc.lookup ip.2).getD (dark2Palette.getD (ip.1 % 8) "blue"))) from by
          simp [buildColorMap, hcc]]
      exact h3

theorem buildColorMap_partial_fallback {cc : List (String × String)}
    {phases : List String} {p : String} (h : p ∈ phases) (hcc : cc ≠ []) :
    ∃ i, i < phases.length ∧
      (buildColorMap (some cc) phases).lookup p =
        some ((cc.lookup p).getD (dark2Palette.getD (i % 8) "blue")) := by
  obtain ⟨i, hi, h3⟩ :=
    lookup_enum_map
      (fun i q => (cc.lookup q).getD (dark2Palette.getD (i % 8) "blue")) phases p h
  refine ⟨i, hi, ?_⟩
  rw [show buildColorMap (some cc) phases =
    phases.enum.map
      (fun ip => (ip.2, (cc.lookup ip.2).getD (dark2Palette.getD (ip.1 % 8) "blue"))) from by
      simp [buildColorMap, hcc]]
  exact h3

/-! ## Lemmas about date normalization -/

theorem cellToDt_error {c : Cell} {e : ChartError}
    (h : cellToDt c = .error e) : e = .invalidDateRange := by
  cases c with
  | dt d => simp [cellToDt] at h
  | raw s =>
    simp only [cellToDt] at h
    rcases hp : parseDate s with _ | d <;> rw [hp] at h
    · cases h
      rfl
    · cases h

theorem normalizeRow_error {r : RawRow} {e : ChartError}
    (h : normalizeRow r = .error e) : e = .invalidDateRange := by
  unfold normalizeRow at h
  rcases hs : cellToDt r.startCell with es | s <;> rw [hs] at h
  · cases h
    exact cellToDt_error hs
  · rcases he : cellToDt r.endCell with ee | en <;> rw [he] at h
    · cases h
      exact cellToDt_error he
    · cases h

theorem normalizeRow_ok {r : RawRow} {n : Row} (h : normalizeRow r = .ok n) :
    n.name = r.name ∧ n.phase = r.phase ∧ n.durationLabel = r.durationLabel ∧
      cellToDt r.startCell = .ok n.startDay ∧ cellToDt r.endCell = .ok n.endDay := by
  unfold normalizeRow at h
  rcases hs : cellToDt r.startCell with es | s <;> rw [hs] at h
  · cases h
  · rcases he : cellToDt r.endCell with ee | en <;> rw [he] at h
    · cases h
    · cases h
      exact ⟨rfl, rfl, rfl, rfl, rfl⟩

theorem normalizeRows_forall₂ :
    ∀ {rs : List RawRow} {ns : List Row}, normalizeRows rs = .ok ns →
      List.Forall₂ (fun r n => normalizeRow r = .ok n) rs ns := by
  intro rs
  induction rs with
  | nil =>
    intro ns h
    cases h
    exact List.Forall₂.nil
  | cons r t ih =>
    intro ns h
    simp only [normalizeRows] at h
    rcases hr : normalizeRow r with e | nr <;> rw [hr] at h
    · cases h
    · rcases ht : normalizeRows t with e | nt <;> rw [ht] at h
      · cases h
      · cases h
        exact List.Forall₂.cons hr (ih ht)

theorem normalizeRows_error :
    ∀ {rs : List RawRow} {e : ChartError}, normalizeRows rs = .error e →
      e = .invalidDateRange := by
  intro rs
  induction rs with
  | nil =>
    intro e h
    cases h
  | cons r t ih =>
    intro e h
    simp only [normalizeRows] at h
    rcases hr : normalizeRow r with er | nr <;> rw [hr] at h
    · cases h
      exact normalizeRow_error hr
    · rcases ht : normalizeRows t with et | nt <;> rw [ht] at h
      · cases h
        exact ih ht
      · cases h

theorem normalizeRows_dt :
    ∀ {rs : List RawRow},
      (∀ r ∈ rs, (∃ d, r.startCell = .dt d) ∧ (∃ d, r.endCell = .dt d)) →
      ∃ ns, normalizeRows rs = .ok ns ∧ ns.map rowToRaw = rs := by
  intro rs
  induction rs with
  | nil => intro _; exact ⟨[], rfl, rfl⟩
  | cons r t ih =>
    intro h
    obtain ⟨⟨s, hs⟩, ⟨e, he⟩⟩ := h r (List.mem_cons_self r t)
    obtain ⟨ns, hns, hmap⟩ := ih (fun r' hr' => h r' (List.mem_cons_of_mem r hr'))
    have hrow : normalizeRow r = .ok (Row.mk r.name s e r.phase r.durationLabel) := by
      unfold normalizeRow
      rw [hs, he]
      rfl
    refine ⟨Row.mk r.name s e r.phase r.durationLabel :: ns, ?_, ?_⟩
    · simp only [normalizeRows, hrow, hns]
    · rw [List.map_cons, hmap]
      have hrr : rowToRaw (Row.mk r.name s e r.phase r.durationLabel) = r := by
        cases r
        simp only [rowToRaw, RawRow.mk.injEq]
        refine ⟨?_, ?_, ?_, ?_, ?_⟩ <;>
          first
          | trivial
          | exact hs.symm
          | exact he.symm
      rw [hrr]

/-! ## Inversion of the whole pipeline -/

theorem create_gantt_chart_ok {f : Frame} {cc : Option (List (String × String))}
    {plan : RenderPlan} {f' : Frame}
    (h : create_gantt_chart f cc = .ok (plan, f')) :
    ∃ rows, normalizeRows f.rows = .ok rows ∧
      layoutRows f.hasPhase f.hasDuration rows cc = .ok plan ∧
      f' = { f with rows := rows.map rowToRaw } := by
  unfold create_gantt_chart at h
  split at h
  · cases h
  · rename_i rows hn
    split at h
    · cases h
    · rename_i p hl
      cases h
      exact ⟨rows, hn, hl, rfl⟩

theorem create_gantt_chart_error {f : Frame} {cc : Option (List (String × String))}
    {e : ChartError} (h : create_gantt_chart f cc = .error e) :
    e = .invalidDateRange ∨ e = .emptyDataset := by
  unfold create_gantt_chart at h
  split at h
  · rename_i en hn
    cases h
    exact Or.inl (normalizeRows_error hn)
  · rename_i rows hn
    split at h
    · rename_i el hl
      cases h
      exact Or.inr (layoutRows_error_iff.mp hl).2
    · cases h

/-! ## Components of the layout plan -/

theorem layoutPlan_bars (hp hd : Bool) (rows : List Row)
    (cc : Option (List (String × String))) :
    (layoutPlan hp hd rows cc).bars =
      (sortRows rows).enum.map
        (fun ir => mkBar hp hd
          (if hp then buildColorMap cc (sortedPhases (sortRows rows)) else [])
          (sortRows rows).length ir.1 ir.2) := rfl

theorem layoutPlan_bars_true (hd : Bool) (rows : List Row)
    (cc : Option (List (String × String))) :
    (layoutPlan true hd rows cc).bars =
      (sortRows rows).enum.map
        (fun ir => mkBar true hd (buildColorMap cc (sortedPhases (sortRows rows)))
          (sortRows rows).length ir.1 ir.2) := rfl

theorem layoutPlan_weekly (hp hd : Bool) (rows : List Row)
    (cc : Option (List (String × String))) :
    (layoutPlan hp hd rows cc).weeklyGridlines =
      dateRangeWeekly (minStart (sortRows rows)) (maxEnd (sortRows rows)) := rfl

theorem layoutPlan_monthly (hp hd : Bool) (rows : List Row)
    (cc : Option (List (String × String))) :
    (layoutPlan hp hd rows cc).monthlyGridlines =
      dateRangeMonthStarts (minStart (sortRows rows)) (maxEnd (sortRows rows)) := rfl

/-! ## Claim C1 -/

/-- C1 (amended): the resolver tries each role's candidate patterns in
priority order, and once a pattern matches, lower-priority patterns are
not consulted; *provided all column names are pairwise distinct after
lowercasing*, within a pattern the first matching column in table order
wins.  (With case-duplicate column names the dict comprehension at
line 62 keeps only the last spelling, so the first-in-table-order part of
the claim fails; see the counterexample.)  On
`["Task Name", "Begin", "Finish"]` resolution yields `task→"Task Name"`,
`start_date→"Begin"`, `end_date→"Finish"`. -/
theorem detect_columns_priority_matching :
    (∀ cols : List String, (cols.map pyLower).Nodup →
      detectColumnsRaw cols =
        { task := resolveRoleSpec cols taskPatterns,
          duration := resolveRoleSpec cols durationPatterns,
          phase := resolveRoleSpec cols phasePatterns,
          start_date := resolveRoleSpec cols startPatterns,
          end_date := resolveRoleSpec cols endPatterns }) ∧
    (∀ (cols : List String) (p : String) (ps : List String) (c : String),
      firstColMatching cols p = some c → resolveRoleSpec cols (p :: ps) = some c) ∧
    detect_columns ["Task Name", "Begin", "Finish"] =
      .ok { task := some "Task Name", start_date := some "Begin",
            end_date := some "Finish" } := by
  refine ⟨?_, ?_, by decide⟩
  · intro cols h
    simp only [detectColumnsRaw]
    rw [columnsLower_of_nodup h]
    simp only [findRole_map_eq]
  · intro cols p ps c h
    simp only [resolveRoleSpec, h]

/-- Witness for C1's amended theorem at the spec's scenario columns. -/
theorem detect_columns_priority_matching_witness :
    (["Task Name", "Begin", "Finish"].map pyLower).Nodup ∧
    detectColumnsRaw ["Task Name", "Begin", "Finish"] =
      { task := resolveRoleSpec ["Task Name", "Begin", "Finish"] taskPatterns,
        duration := resolveRoleSpec ["Task Name", "Begin", "Finish"] durationPatterns,
        phase := resolveRoleSpec ["Task Name", "Begin", "Finish"] phasePatterns,
        start_date := resolveRoleSpec ["Task Name", "Begin", "Finish"] startPatterns,
        end_date := resolveRoleSpec ["Task Name", "Begin", "Finish"] endPatterns } :=
  ⟨by decide, detect_columns_priority_matching.1 ["Task Name", "Begin", "Finish"] (by decide)⟩

/-- C1 counterexample: with the case-duplicate columns
`["Start", "START", "Task", "End"]` the code maps `start_date` to
`"START"`, while the first column in table order whose lowercased name
contains `"start"` is `"Start"` — so "maps the role to the first column
(in table order)" fails as stated. -/
theorem detect_columns_table_order_counterexample :
    detect_columns ["Start", "START", "Task", "End"] =
      .ok { task := some "Task", start_date := some "START", end_date := some "End" } ∧
    firstColMatching ["Start", "START", "Task", "End"] "start" = some "Start" ∧
    (detectedMapping ["Start", "START", "Task", "End"]).start_date ≠
      firstColMatching ["Start", "START", "Task", "End"] "start" :=
  ⟨by decide, by decide, by decide⟩

/-! ## Claim C4 -/

/-- C4: whenever some mandatory role (task, start_date, end_date) cannot
be matched, `detect_columns` fails with a schema error carrying exactly
the list of all unresolved mandatory roles (never one at a time); a
success implies no mandatory role is missing; and the empty column set
yields all three mandatory roles as missing. -/
theorem schema_error_reports_all_missing :
    (∀ cols : List String, missingCols (detectColumnsRaw cols) ≠ [] →
      detect_columns cols = .error (.schemaError (missingCols (detectColumnsRaw cols)))) ∧
    (∀ (cols : List String) (r : String),
      r ∈ missingCols (detectColumnsRaw cols) ↔
        (r ∈ requiredCols ∧ roleLookup (detectColumnsRaw cols) r = none)) ∧
    (∀ (cols : List String) (m : RoleMapping),
      detect_columns cols = .ok m → missingCols m = []) ∧
    detect_columns [] = .error (.schemaError ["task", "start_date", "end_date"]) := by
  refine ⟨?_, ?_, ?_, by decide⟩
  · intro cols h
    simp only [detect_columns]
    rw [if_neg h]
  · intro cols r
    simp [missingCols, List.mem_filter, Option.isNone_iff_eq_none]
  · intro cols m h
    simp only [detect_columns] at h
    split at h
    · rename_i hcond
      cases h
      exact hcond
    · cases h

/-- Witness for C4 on the single column `["Begin"]`, which resolves only
`start_date` and therefore reports `task` and `end_date` together. -/
theorem schema_error_reports_all_missing_witness :
    missingCols (detectColumnsRaw ["Begin"]) ≠ [] ∧
    detect_columns ["Begin"] =
      .error (.schemaError (missingCols (detectColumnsRaw ["Begin"]))) ∧
    missingCols (detectColumnsRaw ["Begin"]) = ["task", "end_date"] :=
  ⟨by decide, schema_error_reports_all_missing.1 ["Begin"] (by decide), by decide⟩

/-! ## Claim C5 -/

/-- C5 (amended): the resolver resolves each role independently — it never
excludes a column already claimed by another role — so the resulting
mapping need not be injective: on
`["Task Name", "Start", "End of Phase"]` both `phase` and `end_date` map
to the same physical column `"End of Phase"` while resolution still
succeeds. -/
theorem roles_resolved_independently :
    (∀ (cols : List String) (m : RoleMapping), detect_columns cols = .ok m →
      m = detectColumnsRaw cols ∧
      m.phase = findRole (columnsLower cols) phasePatterns ∧
      m.end_date = findRole (columnsLower cols) endPatterns) ∧
    detect_columns ["Task Name", "Start", "End of Phase"] =
      .ok { task := some "Task Name", phase := some "End of Phase",
            start_date := some "Start", end_date := some "End of Phase" } := by
  refine ⟨?_, by decide⟩
  intro cols m h
  simp only [detect_columns] at h
  split at h
  · cases h
    exact ⟨rfl, rfl, rfl⟩
  · cases h

/-- Witness for C5's amended theorem at the overlapping columns. -/
theorem roles_resolved_independently_witness :
    detect_columns ["Task Name", "Start", "End of Phase"] =
      .ok (detectedMapping ["Task Name", "Start", "End of Phase"]) ∧
    detectedMapping ["Task Name", "Start", "End of Phase"] =
      detectColumnsRaw ["Task Name", "Start", "End of Phase"] :=
  ⟨by decide,
    (roles_resolved_independently.1 ["Task Name", "Start", "End of Phase"]
      (detectedMapping ["Task Name", "Start", "End of Phase"]) (by decide)).1⟩

/-- C5 counterexample: on `["Task Name", "Start", "End of Phase"]` the
produced role mapping sends both `phase` and `end_date` to the single
physical column `"End of Phase"` — the mapping is not injective, and no
"earlier-processed role wins" arbitration exists in the code. -/
theorem role_mapping_not_injective_counterexample :
    detect_columns ["Task Name", "Start", "End of Phase"] =
      .ok (detectedMapping ["Task Name", "Start", "End of Phase"]) ∧
    roleLookup (detectedMapping ["Task Name", "Start", "End of Phase"]) "phase" =
      some "End of Phase" ∧
    roleLookup (detectedMapping ["Task Name", "Start", "End of Phase"]) "end_date" =
      some "End of Phase" ∧
    ¬ roleMappingInjective (detectedMapping ["Task Name", "Start", "End of Phase"]) := by
  refine ⟨by decide, by decide, by decide, ?_⟩
  intro hinj
  rcases hinj "phase" (by decide) "end_date" (by decide) (by decide) with h1 | h2
  · exact absurd h1 (by decide)
  · exact h2 (by decide)

/-! ## Claim C10 -/

/-- C10: the dict comprehension at line 62 keeps a single entry per
lowercased name — valued at the *last* column in table order with that
lowercased name — so any column a role resolves to is the last column
among those sharing its lowercased spelling; an earlier same-lowercase
column can never be selected. -/
theorem columns_lower_keeps_last_spelling :
    (∀ cols : List String, ((columnsLower cols).map Prod.fst).Nodup) ∧
    (∀ (cols : List String) (k : String),
      (columnsLower cols).lookup k = lastWith (fun c => pyLower c == k) cols) ∧
    (∀ (cols pats : List String) (c : String),
      findRole (columnsLower cols) pats = some c →
        lastWith (fun x => pyLower x == pyLower c) cols = some c) :=
  ⟨keysNodup_columnsLower, lookup_columnsLower,
    fun _ _ _ h => findRole_columnsLower_last h⟩

/-- Witness for C10 on `["Start", "START"]`: the resolver returns the
later spelling `"START"`, which is indeed the last column of its
lowercase class. -/
theorem columns_lower_keeps_last_spelling_witness :
    findRole (columnsLower ["Start", "START"]) startPatterns = some "START" ∧
    lastWith (fun x => pyLower x == pyLower "START") ["Start", "START"] = some "START" :=
  ⟨by decide,
    columns_lower_keeps_last_spelling.2.2 ["Start", "START"] startPatterns "START" (by decide)⟩

/-! ## Claim C3 -/

/-- C3: every rendered bar's width in days is `max(1, (end - start).days)`
— exactly 1 when `end ≤ start`, and `(end - start).days` when
`end > start` — while the bar's left edge and the task records themselves
keep the stored (unclamped) dates: the bars are built over a permutation
of the input rows, whose `startDay`/`endDay` fields are untouched. -/
theorem bar_geometry :
    ∀ (hp hd : Bool) (rows : List Row) (cc : Option (List (String × String)))
      (plan : RenderPlan), layoutRows hp hd rows cc = .ok plan →
      (sortRows rows).Perm rows ∧
      plan.bars.length = (sortRows rows).length ∧
      (∀ i, ∀ hi : i < plan.bars.length, ∀ hr : i < (sortRows rows).length,
        (plan.bars[i]).left = ((sortRows rows)[i]).startDay ∧
        (plan.bars[i]).widthDays =
          max 1 ((((sortRows rows)[i]).endDay : Int) - (((sortRows rows)[i]).startDay : Int)) ∧
        (((sortRows rows)[i]).endDay ≤ ((sortRows rows)[i]).startDay →
          (plan.bars[i]).widthDays = 1) ∧
        (((sortRows rows)[i]).startDay < ((sortRows rows)[i]).endDay →
          (plan.bars[i]).widthDays =
            (((sortRows rows)[i]).endDay : Int) - (((sortRows rows)[i]).startDay : Int))) := by
  intro hp hd rows cc plan h
  obtain ⟨hne, hplan⟩ := layoutRows_ok_iff.mp h
  subst hplan
  have hdur : ∀ r : Row, durationDays r = max 1 ((r.endDay : Int) - (r.startDay : Int)) := by
    intro r
    simp only [durationDays]
    split <;> omega
  have hlen : (layoutPlan hp hd rows cc).bars.length = (sortRows rows).length := by
    rw [layoutPlan_bars, List.length_map, List.enum_length]
  refine ⟨perm_sortBy rowLe rows, hlen, ?_⟩
  intro i hi hr
  have hbar := enum_map_getElem
    (fun ir => mkBar hp hd
      (if hp then buildColorMap cc (sortedPhases (sortRows rows)) else [])
      (sortRows rows).length ir.1 ir.2) (sortRows rows) i hr
    (by simpa using hr)
  have hleft : ((layoutPlan hp hd rows cc).bars[i]).left =
      ((sortRows rows)[i]).startDay := by
    simp only [layoutPlan_bars]
    rw [hbar]
    rfl
  have hwidth : ((layoutPlan hp hd rows cc).bars[i]).widthDays =
      durationDays ((sortRows rows)[i]) := by
    simp only [layoutPlan_bars]
    rw [hbar]
    rfl
  refine ⟨hleft, ?_, ?_, ?_⟩
  · rw [hwidth, hdur]
  · intro hle
    rw [hwidth, hdur]
    omega
  · intro hlt
    rw [hwidth, hdur]
    omega

/-- Witness for C3: a zero-duration task and a negative-duration task both
render with width exactly 1 day, at their stored (unclamped) left edges. -/
theorem bar_geometry_witness :
    layoutRows false false [zeroRow, negRow] none = .ok zPlan ∧
    zPlan.bars.length = (sortRows [zeroRow, negRow]).length ∧
    zPlan.bars.map Bar.widthDays = [1, 1] ∧
    zPlan.bars.map Bar.left = [daysFromCivil 2025 1 5, daysFromCivil 2025 1 9] :=
  ⟨by decide,
    (bar_geometry false false [zeroRow, negRow] none zPlan (by decide)).2.1,
    by decide, by decide⟩

/-! ## Claim C6 -/

/-- C6 (amended): the weekly gridline dates are exactly the *Sundays*
(pandas `freq='W'` = `W-SUN` boundaries, not 7-day steps anchored at the
range start) within `[min(start), max(end)]` over all tasks, and the
monthly gridline dates are exactly the first-of-month dates in that same
range; `minStart`/`maxEnd` really are the minimum start and maximum end.
The weekly lines are drawn *more* opaque than the monthly ones
(`alpha=0.3` dashed vs `alpha=0.2` solid), not at lower visual weight. -/
theorem gridline_dates_and_weights :
    ∀ (hp hd : Bool) (rows : List Row) (cc : Option (List (String × String)))
      (plan : RenderPlan), layoutRows hp hd rows cc = .ok plan →
      (∀ x, x ∈ plan.weeklyGridlines ↔
        (minStart (sortRows rows) ≤ x ∧ x ≤ maxEnd (sortRows rows) ∧ isSunday x = true)) ∧
      (∀ x, x ∈ plan.monthlyGridlines ↔
        (minStart (sortRows rows) ≤ x ∧ x ≤ maxEnd (sortRows rows) ∧ isMonthStart x = true)) ∧
      (∀ r ∈ rows, minStart (sortRows rows) ≤ r.startDay ∧ r.endDay ≤ maxEnd (sortRows rows)) ∧
      (∃ r ∈ rows, minStart (sortRows rows) = r.startDay) ∧
      (∃ r ∈ rows, maxEnd (sortRows rows) = r.endDay) ∧
      monthlyGridAlpha < weeklyGridAlpha ∧
      weeklyGridStyle = "--" ∧ monthlyGridStyle = "-" := by
  intro hp hd rows cc plan h
  obtain ⟨hne, hplan⟩ := layoutRows_ok_iff.mp h
  subst hplan
  refine ⟨?_, ?_, ?_, ?_, ?_, ?_, rfl, rfl⟩
  · intro x
    rw [layoutPlan_weekly]
    simp only [dateRangeWeekly, List.mem_filter, mem_rangeClosed]
    tauto
  · intro x
    rw [layoutPlan_monthly]
    simp only [dateRangeMonthStarts, List.mem_filter, mem_rangeClosed]
    tauto
  · intro r hr
    have hr' : r ∈ sortRows rows := mem_sortBy.mpr hr
    constructor
    · exact listMin_le (List.mem_map_of_mem Row.startDay hr')
    · exact le_listMax (List.mem_map_of_mem Row.endDay hr')
  · have hmapne : (sortRows rows).map Row.startDay ≠ [] := by
      simpa [List.map_eq_nil_iff] using hne
    obtain ⟨x, hx, hmin⟩ := listMin_attain hmapne
    obtain ⟨r, hr, rfl⟩ := List.mem_map.mp hx
    exact ⟨r, mem_sortBy.mp hr, hmin⟩
  · have hmapne : (sortRows rows).map Row.endDay ≠ [] := by
      simpa [List.map_eq_nil_iff] using hne
    obtain ⟨x, hx, hmax⟩ := listMax_attain hmapne
    obtain ⟨r, hr, rfl⟩ := List.mem_map.mp hx
    exact ⟨r, mem_sortBy.mp hr, hmax⟩
  · norm_num [monthlyGridAlpha, weeklyGridAlpha]

/-- Witness for C6's amended theorem: one task 2025-01-01 → 2025-01-15;
the weekly gridlines are the Sundays Jan 5 and Jan 12, the monthly
gridline is Jan 1. -/
theorem gridline_dates_and_weights_witness :
    layoutRows false false [gRow] none = .ok gPlan ∧
    (∃ r ∈ [gRow], minStart (sortRows [gRow]) = r.startDay) ∧
    gPlan.weeklyGridlines = [daysFromCivil 2025 1 5, daysFromCivil 2025 1 12] ∧
    gPlan.monthlyGridlines = [daysFromCivil 2025 1 1] :=
  ⟨by decide,
    (gridline_dates_and_weights false false [gRow] none gPlan (by decide)).2.2.2.1,
    by decide, by decide⟩

/-- C6 counterexample: for a task spanning 2025-01-01 (a Wednesday) to
2025-01-15, the emitted weekly gridlines are the Sundays Jan 5 and
Jan 12, not the 7-day boundaries Jan 1/8/15 anchored at `min(start)`;
and weekly opacity 0.3 is not lower than monthly opacity 0.2. -/
theorem gridline_weekly_anchor_counterexample :
    layoutRows false false [gRow] none = .ok gPlan ∧
    gPlan.weeklyGridlines = [daysFromCivil 2025 1 5, daysFromCivil 2025 1 12] ∧
    specWeeklyBoundaries (minStart (sortRows [gRow])) (maxEnd (sortRows [gRow])) =
      [daysFromCivil 2025 1 1, daysFromCivil 2025 1 8, daysFromCivil 2025 1 15] ∧
    gPlan.weeklyGridlines ≠
      specWeeklyBoundaries (minStart (sortRows [gRow])) (maxEnd (sortRows [gRow])) ∧
    ¬ weeklyGridAlpha < monthlyGridAlpha :=
  ⟨by decide, by decide, by decide, by decide,
    by norm_num [weeklyGridAlpha, monthlyGridAlpha]⟩

/-! ## Claim C7 -/

/-- C7 (amended): in a chart without a phase column every bar gets the
fixed color `"steelblue"`; in a chart with one, every bar's color comes
from a successful color-map lookup of its phase (the `'blue'` fallback of
`color_map.get(phase, 'blue')` is unreachable because the map is built
over all phases in the data).  Every phase in any phase list gets a map
entry, and with a partial custom mapping the entry falls back to the
deterministic palette color of the phase's index.  The two fallback
constants `"steelblue"` and `"blue"` are distinct (see counterexample). -/
theorem phase_color_resolution :
    (∀ (hd : Bool) (rows : List Row) (cc : Option (List (String × String)))
      (plan : RenderPlan), layoutRows false hd rows cc = .ok plan →
      ∀ b ∈ plan.bars, b.color = "steelblue") ∧
    (∀ (hd : Bool) (rows : List Row) (cc : Option (List (String × String)))
      (plan : RenderPlan), layoutRows true hd rows cc = .ok plan →
      plan.bars.length = (sortRows rows).length ∧
      (∀ i, ∀ hi : i < plan.bars.length, ∀ hr : i < (sortRows rows).length,
        ∃ c, (buildColorMap cc (sortedPhases (sortRows rows))).lookup
            (((sortRows rows)[i]).phase) = some c ∧ (plan.bars[i]).color = c)) ∧
    (∀ (cc : Option (List (String × String))) (phases : List String) (p : String),
      p ∈ phases → ∃ c, (buildColorMap cc phases).lookup p = some c) ∧
    (∀ (cc : List (String × String)) (phases : List String) (p : String),
      p ∈ phases → cc ≠ [] →
      ∃ i, i < phases.length ∧
        (buildColorMap (some cc) phases).lookup p =
          some ((cc.lookup p).getD (dark2Palette.getD (i % 8) "blue"))) := by
  refine ⟨?_, ?_, ?_, ?_⟩
  · intro hd rows cc plan h b hb
    obtain ⟨hne, hplan⟩ := layoutRows_ok_iff.mp h
    subst hplan
    rw [layoutPlan_bars] at hb
    obtain ⟨ir, hir, rfl⟩ := List.mem_map.mp hb
    simp [mkBar, taskColor]
  · intro hd rows cc plan h
    obtain ⟨hne, hplan⟩ := layoutRows_ok_iff.mp h
    subst hplan
    have hlen : (layoutPlan true hd rows cc).bars.length = (sortRows rows).length := by
      rw [layoutPlan_bars_true, List.length_map, List.enum_length]
    refine ⟨hlen, ?_⟩
    intro i hi hr
    have hphase : ((sortRows rows)[i]).phase ∈ sortedPhases (sortRows rows) := by
      unfold sortedPhases
      exact mem_sortBy.mpr (mem_pyUnique.mpr
        (List.mem_map_of_mem Row.phase (List.getElem_mem hr)))
    obtain ⟨c, hc⟩ := buildColorMap_covers cc hphase
    refine ⟨c, hc, ?_⟩
    have hbar := enum_map_getElem
      (fun ir => mkBar true hd (buildColorMap cc (sortedPhases (sortRows rows)))
        (sortRows rows).length ir.1 ir.2) (sortRows rows) i hr
      (by simpa using hr)
    simp only [layoutPlan_bars_true]
    rw [hbar]
    simp [mkBar, taskColor, hc]
  · intro cc phases p hp
    exact buildColorMap_covers cc hp
  · intro cc phases p hp hcc
    exact buildColorMap_partial_fallback hp hcc

/-- Witness for C7's amended theorem: two phased tasks with the partial
custom map `Alpha→#123456`; `Beta` falls back to palette color 1
(`#d95f02`) and every bar's color comes from the map. -/
theorem phase_color_resolution_witness :
    layoutRows true false [pRow1, pRow2] (some [("Alpha", "#123456")]) = .ok pPlan ∧
    pPlan.bars.length = (sortRows [pRow1, pRow2]).length ∧
    pPlan.bars.map Bar.color = ["#d95f02", "#123456"] ∧
    pPlan.legend = [("Alpha", "#123456"), ("Beta", "#d95f02")] :=
  ⟨by decide,
    (phase_color_resolution.2.1 false [pRow1, pRow2]
      (some [("Alpha", "#123456")]) pPlan (by decide)).1,
    by decide, by decide⟩

/-- C7 counterexample: the fallback color for a task with no phase column
(`'steelblue'`, line 178) differs from the fallback for a phase missing
from the color map (`'blue'`, line 176) — there is no single fixed
fallback color covering both cases. -/
theorem fallback_color_counterexample :
    taskColor false [] "X" = "steelblue" ∧
    taskColor true [] "X" = "blue" ∧
    taskColor false [] "X" ≠ taskColor true [] "X" ∧
    Except.map (fun p => p.bars.map Bar.color)
      (layoutRows false false [Row.mk "T" 0 1 "" ""] none) = .ok ["steelblue"] :=
  ⟨by decide, by decide, by decide, by decide⟩

/-! ## Claim C8 -/

/-- C8: with zero tasks the layout fails with `emptyDataset` (no default
chart is produced), layout errors happen *only* on the empty dataset, and
the pipeline's only error signals are the schema error (with its
non-empty missing-role list), the date error, and the empty-dataset
error — matching the raise sites of the code (see `ChartError`). -/
theorem error_signals :
    (∀ (hp hd : Bool) (cc : Option (List (String × String))),
      layoutRows hp hd [] cc = .error .emptyDataset) ∧
    (∀ (f : Frame) (cc : Option (List (String × String))), f.rows = [] →
      create_gantt_chart f cc = .error .emptyDataset) ∧
    (∀ (hp hd : Bool) (rows : List Row) (cc : Option (List (String × String)))
      (e : ChartError), layoutRows hp hd rows cc = .error e →
      e = .emptyDataset ∧ rows = []) ∧
    (∀ (cols : List String) (e : ChartError), detect_columns cols = .error e →
      ∃ ms, e = .schemaError ms ∧ ms ≠ []) ∧
    (∀ (rs : List RawRow) (e : ChartError), normalizeRows rs = .error e →
      e = .invalidDateRange) ∧
    (∀ (f : Frame) (cc : Option (List (String × String))) (e : ChartError),
      create_gantt_chart f cc = .error e →
      e = .invalidDateRange ∨ e = .emptyDataset) := by
  refine ⟨?_, ?_, ?_, ?_, ?_, ?_⟩
  · intro hp hd cc
    rfl
  · intro f cc hrows
    unfold create_gantt_chart
    rw [hrows]
    rfl
  · intro hp hd rows cc e h
    obtain ⟨hs, he⟩ := layoutRows_error_iff.mp h
    refine ⟨he, ?_⟩
    have hlen := (perm_sortBy rowLe rows).length_eq
    rw [show sortRows rows = sortBy rowLe rows from rfl] at hs
    rw [hs] at hlen
    exact List.length_eq_zero.mp hlen.symm
  · intro cols e h
    simp only [detect_columns] at h
    split at h
    · cases h
    · rename_i hcond
      cases h
      exact ⟨missingCols (detectColumnsRaw cols), rfl, hcond⟩
  · intro rs e h
    exact normalizeRows_error h
  · intro f cc e h
    exact create_gantt_chart_error h

/-- Witness for C8: the empty frame makes the whole pipeline fail with
`emptyDataset`. -/
theorem error_signals_witness :
    emptyFrame.rows = [] ∧
    create_gantt_chart emptyFrame none = .error .emptyDataset :=
  ⟨by decide, error_signals.2.1 emptyFrame none (by decide)⟩

/-! ## Claim C9 -/

/-- C9 (amended): the schema resolver is a pure function of the column
names, but `create_gantt_chart` is *not* pure in its table argument:
lines 124–127 write the parsed datetime columns back into the caller's
`df` in place whenever the start/end columns are not already
datetime-typed.  The caller-visible frame afterwards keeps every row's
name/phase/duration cell and has each date cell replaced by its parsed
datetime value; when both date columns are already datetime-typed the
frame is left unchanged.  (See the counterexample for the mutation.) -/
theorem chart_mutates_date_columns :
    (∀ (f : Frame) (cc : Option (List (String × String))) (plan : RenderPlan)
      (f' : Frame), create_gantt_chart f cc = .ok (plan, f') →
      f'.hasPhase = f.hasPhase ∧ f'.hasDuration = f.hasDuration ∧
      List.Forall₂
        (fun (r r' : RawRow) =>
          r'.name = r.name ∧ r'.phase = r.phase ∧ r'.durationLabel = r.durationLabel ∧
          (∃ s, cellToDt r.startCell = .ok s ∧ r'.startCell = .dt s) ∧
          (∃ e, cellToDt r.endCell = .ok e ∧ r'.endCell = .dt e))
        f.rows f'.rows) ∧
    (∀ (f : Frame) (cc : Option (List (String × String))) (plan : RenderPlan)
      (f' : Frame), create_gantt_chart f cc = .ok (plan, f') →
      (∀ r ∈ f.rows, (∃ d, r.startCell = .dt d) ∧ (∃ d, r.endCell = .dt d)) →
      f' = f) := by
  constructor
  · intro f cc plan f' h
    obtain ⟨rows, hn, hl, hf'⟩ := create_gantt_chart_ok h
    subst hf'
    refine ⟨rfl, rfl, ?_⟩
    have h2 := normalizeRows_forall₂ hn
    rw [List.forall₂_map_right_iff]
    refine h2.imp ?_
    intro r n hr
    obtain ⟨hname, hphase, hdl, hsc, hec⟩ := normalizeRow_ok hr
    exact ⟨hname, hphase, hdl, ⟨n.startDay, hsc, rfl⟩, ⟨n.endDay, hec, rfl⟩⟩
  · intro f cc plan f' h hdt
    obtain ⟨rows, hn, hl, hf'⟩ := create_gantt_chart_ok h
    obtain ⟨ns, hns, hmap⟩ := normalizeRows_dt hdt
    have hrn : rows = ns := by
      have := hn.symm.trans hns
      cases this
      rfl
    subst hrn
    subst hf'
    cases f
    simp only [Frame.mk.injEq]
    exact ⟨trivial, trivial, hmap⟩

/-- Witness for C9's amended theorem: on a frame whose date columns are
already datetime-typed, the pipeline returns the frame unchanged. -/
theorem chart_mutates_date_columns_witness :
    create_gantt_chart dtFrame none = .ok (cgOut.1, cgOut.2) ∧
    cgOut.2 = dtFrame :=
  ⟨by decide,
    chart_mutates_date_columns.2 dtFrame none cgOut.1 cgOut.2 (by decide)
      (by
        intro r hr
        simp only [dtFrame, List.mem_singleton] at hr
        subst hr
        exact ⟨⟨5, rfl⟩, ⟨9, rfl⟩⟩)⟩

/-- C9 counterexample: on a frame whose date columns hold strings, the
call succeeds but the caller-visible table afterwards differs from the
input — the date columns were converted in place, so the Layout Engine
does not leave the input table (its cell values and column types)
unchanged. -/
theorem chart_mutation_counterexample :
    (create_gantt_chart mutFrame none).toOption.isSome = true ∧
    Except.map Prod.snd (create_gantt_chart mutFrame none) ≠ .ok mutFrame :=
  ⟨by decide, by decide⟩

end QuickGantt
